import Mathlib

/-!
Verification development for the protobuf wire decoder and the schema-driven
measurement resolver of the home-monitoring telemetry API.

The Go sources embedded here:
* services/telemetry-api/pkg/proto/decoder.go (wire decoder, value interpreters,
  repeated-message resolver);
* the measurement batch decoder, timestamp extraction, emission pass and the
  float64 coercion of the telemetry-proto handler (decodeMeasurementBatch,
  HandleTelemetryProto, toFloat64).

Representation choices:
* Go byte slices are List Nat (each entry a byte value below 256).
* uint64 / uint32 values are Nat; signed interpretations produce Int via
  explicit two's-complement conversions (toInt64 / toInt32).
* float32 / float64 values are represented by their IEEE-754 bit patterns
  (the Go code only ever moves the bits around or applies the hardware
  conversions, which are modelled bit-exactly below).
* The Go decode loop is modelled with an explicit fuel parameter so that the
  definition is structural and evaluates inside the kernel; Decode supplies
  fuel data.length + 1, which always exceeds the iteration count because every
  loop iteration advances the cursor by at least one byte.  The outOfFuel
  error is an artifact of the embedding and is unreachable from Decode.
-/

namespace Proto

/-- Two's-complement reading of a 64-bit unsigned value, as in a Go
int64(u) conversion of a uint64 u. -/
def toInt64 (u : Nat) : Int :=
  if u % 2 ^ 64 < 2 ^ 63 then (u % 2 ^ 64 : Int) else (u % 2 ^ 64 : Int) - 2 ^ 64

/-- Two's-complement reading of the low 32 bits of a value, as in a Go
int32(u) conversion. -/
def toInt32 (u : Nat) : Int :=
  if u % 2 ^ 32 < 2 ^ 31 then (u % 2 ^ 32 : Int) else (u % 2 ^ 32 : Int) - 2 ^ 32

/-- Wrap-around of a mathematical integer into the signed 64-bit range, the
behaviour of Go int addition on overflow. -/
def wrapInt64 (x : Int) : Int := (x + 2 ^ 63) % 2 ^ 64 - 2 ^ 63

/-- Loop body of decodeVarint from decoder.go.  Arguments mirror the Go
locals: remaining input, byte index i, accumulated shift, accumulator.
The accumulator is reduced modulo 2^64 exactly where the Go uint64
arithmetic discards high bits. -/
def decodeVarintAux : List Nat → Nat → Nat → Nat → Nat × Nat
  | [], _, _, _ => (0, 0)
  | b :: rest, i, shift, result =>
    if 10 ≤ i then (0, 0)
    else
      let result := (result ||| ((b &&& 0x7F) <<< shift)) % 2 ^ 64
      if b < 0x80 then (result, i + 1)
      else decodeVarintAux rest (i + 1) (shift + 7) result

/-- decodeVarint from decoder.go: returns the decoded value and the number of
bytes consumed, with consumed count 0 signalling failure. -/
def decodeVarint (data : List Nat) : Nat × Nat :=
  decodeVarintAux data 0 0 0

/-- Fuel-indexed body of the test helper encodeVarint (decoder_test.go).
The fuel only bounds the recursion depth; encodeVarint supplies enough of it
for every input. -/
def encodeVarintAux : Nat → Nat → List Nat
  | 0, v => [v % 256]
  | fuel + 1, v =>
    if 0x80 ≤ v then ((v % 256) ||| 0x80) :: encodeVarintAux fuel (v >>> 7)
    else [v % 256]

/-- encodeVarint from decoder_test.go: little-endian base-128 groups with the
continuation bit 0x80 on every byte except the last. -/
def encodeVarint (v : Nat) : List Nat :=
  encodeVarintAux v v

/-- Value from decoder.go: a decoded field payload.  Exactly one of the
payload slots is populated, selected by the stored wire type; the others keep
their Go zero values. -/
structure Value where
  wireType : Nat
  varint : Nat := 0
  fixed32 : Nat := 0
  fixed64 : Nat := 0
  bytes : List Nat := []
deriving DecidableEq

/-- Field from decoder.go. -/
structure Field where
  num : Nat
  value : Value
deriving DecidableEq

/-- Message from decoder.go: the ordered field sequence of one decode. -/
abbrev Message := List Field

/-- Error outcomes of Decode.  The Go code returns fmt errors; the
constructors name the error kinds.  malformedVarint covers the failed tag,
failed varint payload and failed length messages.  panicSliceBounds is the
Go runtime panic raised by the slice expression data[pos : pos+int(length)]
when the declared length, converted from uint64 to int, is negative (or the
sum overflows), so that the bounds check passes but the slice is reversed. -/
inductive DecodeErr where
  | malformedVarint
  | unknownWireType
  | truncatedFixed64
  | truncatedBytes
  | truncatedFixed32
  | panicSliceBounds
  | outOfFuel
deriving DecidableEq

/-- Little-endian unsigned reading of a byte list, as binary.LittleEndian
does on a slice of byte values below 256. -/
def leUint (bs : List Nat) : Nat := bs.foldr (fun b acc => acc * 256 + b) 0

/-- The decode loop of Decode (decoder.go).  data stays fixed, pos is the Go
cursor.  Fields are produced in stream order (the Go append loop is written
as a cons on the recursive call).  The bytes branch mirrors the Go source
line by line: the declared length is converted to a signed 64-bit value, the
cursor addition wraps like Go int addition, the comparison against len(data)
uses that wrapped value, and a slice whose high bound falls below the cursor
panics instead of erroring. -/
def decodeLoop (data : List Nat) : Nat → Nat → Except DecodeErr Message
  | 0, _ => .error .outOfFuel
  | fuel + 1, pos =>
    if pos < data.length then
      let td := decodeVarint (data.drop pos)
      if td.2 = 0 then .error .malformedVarint
      else
        let tag := td.1
        let pos1 := pos + td.2
        let fieldNum := (tag >>> 3) % 2 ^ 32
        let wireType := tag &&& 0x7
        if wireType = 0 then
          let vd := decodeVarint (data.drop pos1)
          if vd.2 = 0 then .error .malformedVarint
          else
            match decodeLoop data fuel (pos1 + vd.2) with
            | .ok rest => .ok (⟨fieldNum, { wireType := 0, varint := vd.1 }⟩ :: rest)
            | .error e => .error e
        else if wireType = 1 then
          if data.length < pos1 + 8 then .error .truncatedFixed64
          else
            match decodeLoop data fuel (pos1 + 8) with
            | .ok rest =>
                .ok (⟨fieldNum, { wireType := 1, fixed64 := leUint ((data.drop pos1).take 8) }⟩ :: rest)
            | .error e => .error e
        else if wireType = 2 then
          let ld := decodeVarint (data.drop pos1)
          if ld.2 = 0 then .error .malformedVarint
          else
            let pos2 := pos1 + ld.2
            let high := wrapInt64 ((pos2 : Int) + toInt64 ld.1)
            if (data.length : Int) < high then .error .truncatedBytes
            else if high < (pos2 : Int) then .error .panicSliceBounds
            else
              match decodeLoop data fuel high.toNat with
              | .ok rest =>
                  .ok (⟨fieldNum,
                        { wireType := 2, bytes := (data.drop pos2).take (high.toNat - pos2) }⟩ :: rest)
              | .error e => .error e
        else if wireType = 5 then
          if data.length < pos1 + 4 then .error .truncatedFixed32
          else
            match decodeLoop data fuel (pos1 + 4) with
            | .ok rest =>
                .ok (⟨fieldNum, { wireType := 5, fixed32 := leUint ((data.drop pos1).take 4) }⟩ :: rest)
            | .error e => .error e
        else .error .unknownWireType
    else .ok []

/-- Decode from decoder.go. -/
def Decode (data : List Nat) : Except DecodeErr Message :=
  decodeLoop data (data.length + 1) 0

/-- GetField from decoder.go: first field with the given number, none when
absent (the Go function returns a nil pointer). -/
def GetField : Message → Nat → Option Field
  | [], _ => none
  | f :: rest, n => if f.num = n then some f else GetField rest n

/-- GetAllFields from decoder.go: every field with the given number, in
stream order. -/
def GetAllFields : Message → Nat → List Field
  | [], _ => []
  | f :: rest, n => if f.num = n then f :: GetAllFields rest n else GetAllFields rest n

/-- Error outcomes of DecodeRepeated: a failed envelope decode or a failed
embedded decode, each wrapping the inner decoder error. -/
inductive RepErr where
  | outer (e : DecodeErr)
  | nested (e : DecodeErr)
deriving DecidableEq

/-- The collection loop of DecodeRepeated (decoder.go): walk the matching
fields, skip those whose wire type is not WireBytes, decode the payload of
the others, aborting on the first embedded decode error. -/
def decodeEmbedded : List Field → Except RepErr (List Message)
  | [] => .ok []
  | f :: rest =>
    if f.value.wireType ≠ 2 then decodeEmbedded rest
    else
      match Decode f.value.bytes with
      | .error e => .error (.nested e)
      | .ok m =>
        match decodeEmbedded rest with
        | .ok ms => .ok (m :: ms)
        | .error e => .error e

/-- DecodeRepeated from decoder.go. -/
def DecodeRepeated (data : List Nat) (fieldNum : Nat) : Except RepErr (List Message) :=
  match Decode data with
  | .error e => .error (.outer e)
  | .ok msg => decodeEmbedded (GetAllFields msg fieldNum)

/-- Sequencing of nested decodes over a field list, written from the spec
words for DecodeRepeated: decode every payload recursively, aborting with
the wrapped error on the first failure, never returning a partial list. -/
def decodeEach : List Field → Except RepErr (List Message)
  | [] => .ok []
  | f :: rest =>
    match Decode f.value.bytes with
    | .error e => .error (.nested e)
    | .ok m =>
      match decodeEach rest with
      | .ok ms => .ok (m :: ms)
      | .error e => .error e

/-- Specification-side formulation of DecodeRepeated: decode the envelope,
keep exactly the matching fields whose wire type is LengthDelimited in
stream order, and decode each payload, all-or-nothing. -/
def decodeRepeatedSpec (data : List Nat) (fieldNum : Nat) : Except RepErr (List Message) :=
  match Decode data with
  | .error e => .error (.outer e)
  | .ok msg =>
    decodeEach ((GetAllFields msg fieldNum).filter (fun f => f.value.wireType == 2))

/-- AsFloat32 from decoder.go returns math.Float32frombits of the Fixed32
slot; in the bit-pattern representation it is the Fixed32 slot itself. -/
def Value.AsFloat32 (v : Value) : Nat := v.fixed32

/-- AsFloat64 from decoder.go returns math.Float64frombits of the Fixed64
slot; in the bit-pattern representation it is the Fixed64 slot itself. -/
def Value.AsFloat64 (v : Value) : Nat := v.fixed64

/-- AsInt32 from decoder.go: int32 truncation of the varint payload. -/
def Value.AsInt32 (v : Value) : Int := toInt32 v.varint

/-- AsInt64 from decoder.go: int64 reading of the varint payload. -/
def Value.AsInt64 (v : Value) : Int := toInt64 v.varint

/-- AsUint32 from decoder.go: the varint payload truncated to 32 bits. -/
def Value.AsUint32 (v : Value) : Nat := v.varint % 2 ^ 32

/-- AsUint64 from decoder.go: the varint payload. -/
def Value.AsUint64 (v : Value) : Nat := v.varint

/-- AsBool from decoder.go: the varint payload is non-zero. -/
def Value.AsBool (v : Value) : Bool := v.varint ≠ 0

/-- Go unary negation on uint64, used by the zig-zag interpreters. -/
def negUint64 (u : Nat) : Nat := (2 ^ 64 - (u &&& 1)) % 2 ^ 64

/-- AsSint32 from decoder.go: int32((v.Varint >> 1) ^ -(v.Varint & 1)),
computed in uint64 and then truncated. -/
def Value.AsSint32 (v : Value) : Int :=
  toInt32 ((v.varint >>> 1) ^^^ negUint64 v.varint)

/-- AsSint64 from decoder.go: int64((v.Varint >> 1) ^ -(v.Varint & 1)). -/
def Value.AsSint64 (v : Value) : Int :=
  toInt64 ((v.varint >>> 1) ^^^ negUint64 v.varint)

/-- Zig-zag encoding of a signed integer, modelled from the spec: the
bijection sending 0, -1, 1, -2, 2 to 0, 1, 2, 3, 4.  The source repository
has no zig-zag encoder; this is the reference inverse for the interpreters. -/
def zigZagEncode (n : Int) : Nat :=
  if 0 ≤ n then (2 * n).toNat else (2 * (-n) - 1).toNat

end Proto

namespace Handlers

/-- MeasurementMeta from store.go: schema metadata for one measurement id. -/
structure MeasurementMeta where
  id : Nat
  name : String
  type : String
  unit : String
deriving DecidableEq

/-- Runtime value held in the Go interface slot Measurement.Value, one
constructor per concrete type decodeMeasurementBatch can store.  The two
float constructors carry IEEE-754 bit patterns. -/
inductive MValue where
  | f32 (bits : Nat)
  | f64 (bits : Nat)
  | i32 (n : Int)
  | i64 (n : Int)
  | u32 (n : Nat)
  | u64 (n : Nat)
  | b (v : Bool)
deriving DecidableEq

/-- Measurement from devices.go: the decoded id plus the auto-detected value;
none models the nil interface left when no oneof field was present. -/
structure Measurement where
  id : Nat
  value : Option MValue
deriving DecidableEq

/-- The oneof scan of decodeMeasurementBatch: walk the fields in stream
order, and the first field numbered 2 to 8 selects the value through the
fixed interpreter mapping; every other field number falls through. -/
def detectValue : Proto.Message → Option MValue
  | [] => none
  | f :: rest =>
    if f.num = 2 then some (.f32 f.value.AsFloat32)
    else if f.num = 3 then some (.f64 f.value.AsFloat64)
    else if f.num = 4 then some (.i32 f.value.AsInt32)
    else if f.num = 5 then some (.i64 f.value.AsInt64)
    else if f.num = 6 then some (.u32 f.value.AsUint32)
    else if f.num = 7 then some (.u64 f.value.AsUint64)
    else if f.num = 8 then some (.b f.value.AsBool)
    else detectValue rest

/-- Construction of one Measurement from one decoded sub-message, as in the
body of the decodeMeasurementBatch loop: the id comes from field number 1
through AsUint32 (0 when the field is absent, the Go zero value), the value
from the oneof scan. -/
def mkMeasurement (msg : Proto.Message) : Measurement :=
  { id := match Proto.GetField msg 1 with
          | some f => f.value.AsUint32
          | none => 0,
    value := detectValue msg }

/-- decodeMeasurementBatch from devices.go: decode the repeated embedded
measurements at envelope field 1 and map each to a Measurement. -/
def decodeMeasurementBatch (data : List Nat) :
    Except Proto.RepErr (List Measurement) :=
  match Proto.DecodeRepeated data 1 with
  | .error e => .error e
  | .ok msgs => .ok (msgs.map mkMeasurement)

/-- Lookup in the idToMeta map HandleTelemetryProto builds by inserting every
schema entry keyed by its id; a later duplicate id overwrites an earlier
one, hence the search from the end of the list. -/
def idToMeta (schema : List MeasurementMeta) (i : Nat) : Option MeasurementMeta :=
  schema.reverse.find? (fun meta => meta.id == i)

/-- Millisecond value the timestamp switch of HandleTelemetryProto assigns
for a matched integer variant: time.UnixMilli(int64(ts)) for uint64,
time.UnixMilli(ts) for int64, and the widened 32-bit variants.  none models
the switch matching no case, which leaves the Go timestamp variable zero. -/
def tsFromValue : Option MValue → Option Int
  | some (.u64 v) => some (Proto.toInt64 v)
  | some (.i64 n) => some n
  | some (.u32 v) => some (v : Int)
  | some (.i32 n) => some n
  | _ => none

/-- First pass of HandleTelemetryProto: scan the measurements and stop at the
first one whose schema entry is named timestamp; the break fires whether or
not the switch matched, so a non-integer value at that measurement yields
none. -/
def firstPassTimestamp (schema : List MeasurementMeta) : List Measurement → Option Int
  | [] => none
  | m :: rest =>
    match idToMeta schema m.id with
    | some meta =>
      if meta.name = "timestamp" then tsFromValue m.value
      else firstPassTimestamp schema rest
    | none => firstPassTimestamp schema rest

/-- Millisecond epoch value of Go's zero time.Time (January 1, year 1 UTC):
time.UnixMilli ms is the zero instant exactly when ms equals this value. -/
def zeroTimeMilli : Int := -62135596800000

/-- The effective batch timestamp of HandleTelemetryProto: the value the
first pass produced, unless the timestamp variable is still the zero time
afterwards, in which case the server time now is used.  The IsZero test is
faithful to Go: time.UnixMilli ms satisfies IsZero exactly for
ms = zeroTimeMilli, so a payload carrying that exact millisecond value also
falls back to now. -/
def effectiveTimestamp (schema : List MeasurementMeta) (ms : List Measurement)
    (now : Int) : Int :=
  match firstPassTimestamp schema ms with
  | none => now
  | some t => if t = zeroTimeMilli then now else t

/-- Fuel-indexed binary digit counter; the fuel only bounds the recursion
depth and bitLen supplies enough of it for every input. -/
def bitLenAux : Nat → Nat → Nat
  | 0, _ => 0
  | fuel + 1, n => if n = 0 then 0 else bitLenAux fuel (n / 2) + 1

/-- Number of binary digits of n, so 0 for 0 and, for positive n, the k + 1
with 2 ^ k ≤ n < 2 ^ (k + 1). -/
def bitLen (n : Nat) : Nat := bitLenAux n n

/-- IEEE-754 binary64 bit pattern of a natural number under Go's
integer-to-float64 conversion (round to nearest, ties to even). -/
def natToFloat64Bits (n : Nat) : Nat :=
  if n = 0 then 0
  else
    let k := bitLen n - 1
    if k ≤ 52 then (1023 + k) * 2 ^ 52 + (n * 2 ^ (52 - k) - 2 ^ 52)
    else
      let s := k - 52
      let q := n / 2 ^ s
      let r := n % 2 ^ s
      let half := 2 ^ (s - 1)
      let q1 := if half < r ∨ (r = half ∧ q % 2 = 1) then q + 1 else q
      if q1 = 2 ^ 53 then (1023 + k + 1) * 2 ^ 52
      else (1023 + k) * 2 ^ 52 + (q1 - 2 ^ 52)

/-- IEEE-754 binary64 bit pattern of an integer under Go's conversion:
the sign bit plus the conversion of the magnitude. -/
def intToFloat64Bits (n : Int) : Nat :=
  if n < 0 then 2 ^ 63 + natToFloat64Bits (-n).toNat else natToFloat64Bits n.toNat

/-- IEEE-754 widening of a binary32 bit pattern to binary64, the effect of
the Go conversion float64(f) on a float32 f: the exponent is rebiased and
the fraction shifted, infinities and NaNs map to their binary64 forms, and
subnormals are renormalized. -/
def float32BitsToFloat64Bits (bits : Nat) : Nat :=
  let b := bits % 2 ^ 32
  let s := b / 2 ^ 31
  let e := b / 2 ^ 23 % 2 ^ 8
  let m := b % 2 ^ 23
  if e = 255 then s * 2 ^ 63 + 2047 * 2 ^ 52 + m * 2 ^ 29
  else if e = 0 then
    if m = 0 then s * 2 ^ 63
    else
      let k := bitLen m - 1
      s * 2 ^ 63 + (874 + k) * 2 ^ 52 + (m * 2 ^ (52 - k) - 2 ^ 52)
  else s * 2 ^ 63 + (e + 896) * 2 ^ 52 + m * 2 ^ 29

/-- toFloat64 from devices.go, restricted to the seven concrete types that
decodeMeasurementBatch stores in the value slot (the Go function also has
string and default branches, unreachable from this caller); on these seven
it never returns an error, so the model is a total function producing the
binary64 bit pattern of the Go float64 result. -/
def toFloat64 : MValue → Nat
  | .f32 bits => float32BitsToFloat64Bits bits
  | .f64 bits => bits
  | .i32 n => intToFloat64Bits n
  | .i64 n => intToFloat64Bits n
  | .u32 n => natToFloat64Bits n
  | .u64 n => natToFloat64Bits n
  | .b v => if v then natToFloat64Bits 1 else natToFloat64Bits 0

/-- One stored reading of the emission pass: the schema name and unit plus
the float64 value (as its bit pattern) handed to the telemetry store. -/
structure Reading where
  name : String
  value : Nat
  unit : String
deriving DecidableEq

/-- Second pass of HandleTelemetryProto: skip measurements with an unknown
id, skip the timestamp measurement, skip a nil value, and emit one reading
with the coerced float64 value for every survivor. -/
def emitReadings (schema : List MeasurementMeta) : List Measurement → List Reading
  | [] => []
  | m :: rest =>
    match idToMeta schema m.id with
    | none => emitReadings schema rest
    | some meta =>
      if meta.name = "timestamp" then emitReadings schema rest
      else
        match m.value with
        | none => emitReadings schema rest
        | some v => ⟨meta.name, toFloat64 v, meta.unit⟩ :: emitReadings schema rest

/-- The pure core of HandleTelemetryProto after the schema and body have
been fetched: decode the batch, and on success return the emitted readings
together with the effective timestamp; a decode error aborts the batch.  The
caller's current time enters as the parameter now. -/
def resolveBatch (data : List Nat) (schema : List MeasurementMeta) (now : Int) :
    Except Proto.RepErr (List Reading × Int) :=
  match decodeMeasurementBatch data with
  | .error e => .error e
  | .ok ms => .ok (emitReadings schema ms, effectiveTimestamp schema ms now)

/-- Predicate of the timestamp scan: this measurement's schema entry exists
and is named timestamp. -/
def isTimestampMeas (schema : List MeasurementMeta) (m : Measurement) : Bool :=
  match idToMeta schema m.id with
  | some meta => meta.name == "timestamp"
  | none => false

end Handlers

/-! Concrete wire-format inputs used by the claim theorems and witnesses. -/

/-- Schema of the batch scenario: id 1 named id, id 2 a float temperature in
celsius, id 3 the timestamp. -/
def schemaTemp : List Handlers.MeasurementMeta :=
  [⟨1, "id", "uint32", ""⟩, ⟨2, "temperature", "float", "celsius"⟩,
   ⟨3, "timestamp", "uint64", "ms"⟩]

/-- Measurement sub-message: field 1 (id) = 2, field 2 (float) = 23.5
(float32 bit pattern 0x41BC0000, little-endian payload). -/
def subTemperature : List Nat := [0x08, 0x02, 0x15, 0x00, 0x00, 0xBC, 0x41]

/-- Measurement sub-message: field 1 (id) = 3, field 7 (uint64) =
1700000000000 as a varint. -/
def subTimestamp : List Nat := [0x08, 0x03, 0x38, 0x80, 0xD0, 0x95, 0xFF, 0xBC, 0x31]

/-- Batch envelope of the scenario: two length-delimited fields numbered 1
holding the two sub-messages. -/
def tempBatchBytes : List Nat :=
  [0x0A, subTemperature.length] ++ subTemperature ++ [0x0A, subTimestamp.length] ++ subTimestamp

/-- Batch whose only measurement has id 3 (timestamp) and an int64 value
(field 5) equal to -62135596800000, the millisecond epoch of Go's zero
time; the varint bytes encode 2 ^ 64 - 62135596800000. -/
def tsZeroBytes : List Nat :=
  [0x0A, 0x0D, 0x08, 0x03, 0x28, 0x80, 0xD0, 0xCC, 0xEE, 0xCE, 0xEF, 0xF1, 0xFF, 0xFF, 0x01]

/-- Batch whose only measurement carries id 7 and none of the value fields
2 to 8. -/
def noValueBytes : List Nat := [0x0A, 0x02, 0x08, 0x07]

/-- A buffer declaring a LengthDelimited field of length 2 ^ 63 with no
payload bytes behind it: tag 0x0A (field 1, wire type 2) followed by the
ten-byte varint of 2 ^ 63. -/
def giantLenBytes : List Nat :=
  [0x0A, 0x80, 0x80, 0x80, 0x80, 0x80, 0x80, 0x80, 0x80, 0x80, 0x01]

/-- C1: a LengthDelimited length that exceeds the remaining buffer is meant
to yield TruncatedBytes.  That holds for ordinary lengths, and the Fixed64
and Fixed32 analogues hold, but a declared length of 2 ^ 63 (which does not
fit in a signed 64-bit integer) makes the Go bounds check pass on a negative
wrapped value and the slice expression panic instead of returning an
error. -/
theorem C1_truncation_errors_and_giant_length_panic :
    Proto.Decode giantLenBytes = .error .panicSliceBounds ∧
    Proto.Decode [0x0A, 0x05, 0x68, 0x69] = .error .truncatedBytes ∧
    Proto.Decode [0x09, 0x01, 0x02, 0x03, 0x04] = .error .truncatedFixed64 ∧
    Proto.Decode [0x0D, 0x01, 0x02] = .error .truncatedFixed32 :=
  ⟨rfl, rfl, rfl, rfl⟩

/-- C8: whenever the tag about to be read carries a wire-type code outside
zero, one, two and five, the decode loop stops with UnknownWireType at once,
from any reachable cursor position and in particular from the start of the
buffer, so no fields are ever returned around the offending tag. -/
theorem C8_unknown_wire_type_rejected :
    (∀ (data : List Nat) (fuel pos : Nat),
        (Proto.decodeVarint (data.drop pos)).2 ≠ 0 →
        (Proto.decodeVarint (data.drop pos)).1 &&& 0x7 ≠ 0 →
        (Proto.decodeVarint (data.drop pos)).1 &&& 0x7 ≠ 1 →
        (Proto.decodeVarint (data.drop pos)).1 &&& 0x7 ≠ 2 →
        (Proto.decodeVarint (data.drop pos)).1 &&& 0x7 ≠ 5 →
        1 ≤ fuel →
        Proto.decodeLoop data fuel pos = .error .unknownWireType) ∧
    (∀ data : List Nat,
        (Proto.decodeVarint data).2 ≠ 0 →
        (Proto.decodeVarint data).1 &&& 0x7 ≠ 0 →
        (Proto.decodeVarint data).1 &&& 0x7 ≠ 1 →
        (Proto.decodeVarint data).1 &&& 0x7 ≠ 2 →
        (Proto.decodeVarint data).1 &&& 0x7 ≠ 5 →
        Proto.Decode data = .error .unknownWireType) := by
  have hmain :
      ∀ (d : List Nat) (fuel pos : Nat),
        (Proto.decodeVarint (d.drop pos)).2 ≠ 0 →
        (Proto.decodeVarint (d.drop pos)).1 &&& 0x7 ≠ 0 →
        (Proto.decodeVarint (d.drop pos)).1 &&& 0x7 ≠ 1 →
        (Proto.decodeVarint (d.drop pos)).1 &&& 0x7 ≠ 2 →
        (Proto.decodeVarint (d.drop pos)).1 &&& 0x7 ≠ 5 →
        1 ≤ fuel →
        Proto.decodeLoop d fuel pos = .error .unknownWireType := by
    intro d fuel pos hn h0 h1 h2 h5 hf
    have hdrop : d.drop pos ≠ [] := by
      intro h
      rw [h] at hn
      exact hn rfl
    have hpos : pos < d.length := by
      by_contra hge
      exact hdrop (List.drop_eq_nil_of_le (by omega))
    cases fuel with
    | zero => omega
    | succ f =>
      simp only [Proto.decodeLoop, hpos, if_true]
      simp [hn, h0, h1, h2, h5]
  refine ⟨hmain, ?_⟩
  intro data hn h0 h1 h2 h5
  have hd : data.drop 0 = data := List.drop_zero data
  unfold Proto.Decode
  exact hmain data (data.length + 1) 0 (by rwa [hd]) (by rwa [hd]) (by rwa [hd])
    (by rwa [hd]) (by rwa [hd]) (by omega)

/-- Witness for C8 at concrete inputs: a first tag with wire type 3, and a
loop state sitting on a tag with wire type 4 after one good field. -/
theorem C8_unknown_wire_type_rejected_witness :
    Proto.Decode [0x0B] = .error .unknownWireType ∧
    Proto.decodeLoop [0x08, 0x01, 0x0C] 2 2 = .error .unknownWireType :=
  ⟨C8_unknown_wire_type_rejected.2 [0x0B] (by decide) (by decide) (by decide) (by decide)
      (by decide),
   C8_unknown_wire_type_rejected.1 [0x08, 0x01, 0x0C] 2 2 (by decide) (by decide) (by decide)
      (by decide) (by decide) (by omega)⟩

/-- Three-field message of the lookup scenario: fields (1,10), (2,20),
(1,11) as varints. -/
def msgLookup : Proto.Message :=
  [⟨1, { wireType := 0, varint := 10 }⟩, ⟨2, { wireType := 0, varint := 20 }⟩,
   ⟨1, { wireType := 0, varint := 11 }⟩]

/-- C9: GetField and GetAllFields are total lookups: GetAllFields is the
order-preserving filter by field number, GetField returns its first element,
an absent number yields none and the empty list, and the concrete
three-field scenario behaves as stated. -/
theorem C9_field_lookups_total :
    (∀ (m : Proto.Message) (n : Nat),
        Proto.GetAllFields m n = m.filter (fun f => f.num == n)) ∧
    (∀ (m : Proto.Message) (n : Nat),
        Proto.GetField m n = (Proto.GetAllFields m n).head?) ∧
    (∀ (m : Proto.Message) (n : Nat), (∀ f ∈ m, f.num ≠ n) →
        Proto.GetField m n = none ∧ Proto.GetAllFields m n = []) ∧
    (Proto.GetField msgLookup 1 = some ⟨1, { wireType := 0, varint := 10 }⟩ ∧
     Proto.GetAllFields msgLookup 1 =
       [⟨1, { wireType := 0, varint := 10 }⟩, ⟨1, { wireType := 0, varint := 11 }⟩]) := by
  have hall : ∀ (m : Proto.Message) (n : Nat),
      Proto.GetAllFields m n = m.filter (fun f => f.num == n) := by
    intro m n
    induction m with
    | nil => rfl
    | cons f rest ih =>
      by_cases h : f.num = n
      · simp [Proto.GetAllFields, List.filter_cons, h, ih]
      · simp [Proto.GetAllFields, List.filter_cons, h, ih]
  have hfirst : ∀ (m : Proto.Message) (n : Nat),
      Proto.GetField m n = (Proto.GetAllFields m n).head? := by
    intro m n
    induction m with
    | nil => rfl
    | cons f rest ih =>
      by_cases h : f.num = n
      · simp [Proto.GetField, Proto.GetAllFields, h]
      · simp [Proto.GetField, Proto.GetAllFields, h, ih]
  refine ⟨hall, hfirst, ?_, by decide, by decide⟩
  intro m n habs
  have hnil : Proto.GetAllFields m n = [] := by
    rw [hall]
    refine List.filter_eq_nil_iff.mpr ?_
    intro f hf
    simpa using habs f hf
  constructor
  · rw [hfirst, hnil]
    rfl
  · exact hnil

/-- Witness for C9: the absent-number clause applied to the concrete message
at field number 3. -/
theorem C9_field_lookups_total_witness :
    Proto.GetField msgLookup 3 = none ∧ Proto.GetAllFields msgLookup 3 = [] :=
  C9_field_lookups_total.2.2.1 msgLookup 3 (by decide)

/-- C10: a sub-message with none of the value fields 2 to 8 still yields a
Measurement (with value none) instead of failing: decodeMeasurementBatch
maps every decoded sub-message to a measurement, a sub-message without
fields 2 to 8 gets value none, a none-valued measurement is silently skipped
by the emission pass, and the concrete one-measurement batch decodes to id 7
with value none while a known-id none-valued measurement emits nothing. -/
theorem C10_valueless_measurement_kept_then_skipped :
    (∀ (data : List Nat) (msgs : List Proto.Message),
        Proto.DecodeRepeated data 1 = .ok msgs →
        Handlers.decodeMeasurementBatch data = .ok (msgs.map Handlers.mkMeasurement)) ∧
    (∀ msg : Proto.Message, (∀ f ∈ msg, ¬(2 ≤ f.num ∧ f.num ≤ 8)) →
        (Handlers.mkMeasurement msg).value = none) ∧
    (∀ (schema : List Handlers.MeasurementMeta) (m : Handlers.Measurement)
        (rest : List Handlers.Measurement), m.value = none →
        Handlers.emitReadings schema (m :: rest) = Handlers.emitReadings schema rest) ∧
    (Handlers.decodeMeasurementBatch noValueBytes = .ok [⟨7, none⟩] ∧
     Handlers.emitReadings schemaTemp [⟨2, none⟩] = []) := by
  refine ⟨?_, ?_, ?_, by rfl, by rfl⟩
  · intro data msgs h
    unfold Handlers.decodeMeasurementBatch
    rw [h]
  · intro msg habs
    show Handlers.detectValue msg = none
    induction msg with
    | nil => rfl
    | cons f rest ih =>
      have hf := habs f (by simp)
      have hrest : ∀ g ∈ rest, ¬(2 ≤ g.num ∧ g.num ≤ 8) := by
        intro g hg
        exact habs g (by simp [hg])
      have h2 : f.num ≠ 2 := by omega
      have h3 : f.num ≠ 3 := by omega
      have h4 : f.num ≠ 4 := by omega
      have h5 : f.num ≠ 5 := by omega
      have h6 : f.num ≠ 6 := by omega
      have h7 : f.num ≠ 7 := by omega
      have h8 : f.num ≠ 8 := by omega
      simp [Handlers.detectValue, h2, h3, h4, h5, h6, h7, h8, ih hrest]
  · intro schema m rest hnone
    cases hmeta : Handlers.idToMeta schema m.id with
    | none => simp [Handlers.emitReadings, hmeta]
    | some meta =>
      by_cases ht : meta.name = "timestamp"
      · simp [Handlers.emitReadings, hmeta, ht]
      · simp [Handlers.emitReadings, hmeta, ht, hnone]

/-- Witness for C10: the three quantified clauses applied at the concrete
batch, a concrete field-1-only sub-message and a concrete none-valued
measurement. -/
theorem C10_valueless_measurement_kept_then_skipped_witness :
    Handlers.decodeMeasurementBatch noValueBytes =
      .ok ([[⟨1, { wireType := 0, varint := 7 }⟩]].map Handlers.mkMeasurement) ∧
    (Handlers.mkMeasurement [⟨1, { wireType := 0, varint := 7 }⟩]).value = none ∧
    Handlers.emitReadings schemaTemp (⟨2, none⟩ :: []) = Handlers.emitReadings schemaTemp [] :=
  ⟨C10_valueless_measurement_kept_then_skipped.1 noValueBytes
      [[⟨1, { wireType := 0, varint := 7 }⟩]] (by rfl),
   C10_valueless_measurement_kept_then_skipped.2.1 [⟨1, { wireType := 0, varint := 7 }⟩]
      (by decide),
   C10_valueless_measurement_kept_then_skipped.2.2.1 schemaTemp ⟨2, none⟩ [] rfl⟩

/-- Fields with a number outside 2 to 8 fall through the oneof scan. -/
theorem detectValue_skip (f : Proto.Field) (rest : Proto.Message)
    (h : ¬(2 ≤ f.num ∧ f.num ≤ 8)) :
    Handlers.detectValue (f :: rest) = Handlers.detectValue rest := by
  have h2 : f.num ≠ 2 := by omega
  have h3 : f.num ≠ 3 := by omega
  have h4 : f.num ≠ 4 := by omega
  have h5 : f.num ≠ 5 := by omega
  have h6 : f.num ≠ 6 := by omega
  have h7 : f.num ≠ 7 := by omega
  have h8 : f.num ≠ 8 := by omega
  simp [Handlers.detectValue, h2, h3, h4, h5, h6, h7, h8]

/-- C3: the oneof scan is first-match-wins over the fixed mapping: whatever
comes before the first field numbered 2 to 8 is skipped, whatever comes
after it is ignored, and each field number 2 to 8 selects the stated
interpreter. -/
theorem C3_oneof_first_match_wins :
    (∀ (pre : Proto.Message) (f : Proto.Field) (post : Proto.Message),
        (∀ g ∈ pre, ¬(2 ≤ g.num ∧ g.num ≤ 8)) → 2 ≤ f.num → f.num ≤ 8 →
        Handlers.detectValue (pre ++ f :: post) = Handlers.detectValue [f] ∧
        Handlers.detectValue [f] ≠ none) ∧
    (∀ v : Proto.Value,
        Handlers.detectValue [⟨2, v⟩] = some (.f32 v.AsFloat32) ∧
        Handlers.detectValue [⟨3, v⟩] = some (.f64 v.AsFloat64) ∧
        Handlers.detectValue [⟨4, v⟩] = some (.i32 v.AsInt32) ∧
        Handlers.detectValue [⟨5, v⟩] = some (.i64 v.AsInt64) ∧
        Handlers.detectValue [⟨6, v⟩] = some (.u32 v.AsUint32) ∧
        Handlers.detectValue [⟨7, v⟩] = some (.u64 v.AsUint64) ∧
        Handlers.detectValue [⟨8, v⟩] = some (.b v.AsBool)) := by
  constructor
  · intro pre f post hpre h2 h8
    have hpost : Handlers.detectValue (f :: post) = Handlers.detectValue [f] ∧
        Handlers.detectValue [f] ≠ none := by
      obtain ⟨n, v⟩ := f
      simp only at h2 h8
      interval_cases n <;> simp [Handlers.detectValue]
    have hskip : Handlers.detectValue (pre ++ f :: post) = Handlers.detectValue (f :: post) := by
      induction pre with
      | nil => rfl
      | cons g rest ih =>
        have hg := hpre g (by simp)
        have hrest : ∀ g ∈ rest, ¬(2 ≤ g.num ∧ g.num ≤ 8) := by
          intro x hx
          exact hpre x (by simp [hx])
        rw [List.cons_append, detectValue_skip g _ hg, ih hrest]
    exact ⟨hskip.trans hpost.1, hpost.2⟩
  · intro v
    refine ⟨rfl, rfl, rfl, rfl, rfl, rfl, rfl⟩

/-- Witness for C3: a measurement whose int64 field 5 precedes a float64
field 3; the scan returns the int64 reading of field 5. -/
theorem C3_oneof_first_match_wins_witness :
    Handlers.detectValue
        [⟨1, { wireType := 0, varint := 9 }⟩, ⟨5, { wireType := 0, varint := 40 }⟩,
         ⟨3, { wireType := 1, fixed64 := 77 }⟩] =
      Handlers.detectValue [⟨5, { wireType := 0, varint := 40 }⟩] ∧
    Handlers.detectValue [⟨5, { wireType := 0, varint := 40 }⟩] ≠ none :=
  C3_oneof_first_match_wins.1 [⟨1, { wireType := 0, varint := 9 }⟩]
    ⟨5, { wireType := 0, varint := 40 }⟩ [⟨3, { wireType := 1, fixed64 := 77 }⟩]
    (by decide) (by decide) (by decide)

/-- The collection loop of DecodeRepeated equals the filter-then-decode
formulation written from the spec. -/
theorem decodeEmbedded_eq_decodeEach (l : List Proto.Field) :
    Proto.decodeEmbedded l =
      Proto.decodeEach (l.filter (fun f => f.value.wireType == 2)) := by
  induction l with
  | nil => rfl
  | cons f rest ih =>
    by_cases h : f.value.wireType = 2
    · simp only [Proto.decodeEmbedded, h, List.filter_cons]
      simp only [h, beq_self_eq_true, if_true]
      simp [Proto.decodeEach, ih]
    · simp only [Proto.decodeEmbedded, List.filter_cons]
      have hb : (f.value.wireType == 2) = false := by simp [h]
      simp [h, hb, ih]

/-- C5: DecodeRepeated decodes the envelope and then decodes exactly the
length-delimited fields at the requested number, in stream order, skipping
same-numbered fields of other wire types, with any envelope or nested
failure aborting the whole call without a partial result. -/
theorem C5_decode_repeated_refines_spec :
    ∀ (data : List Nat) (fieldNum : Nat),
      Proto.DecodeRepeated data fieldNum = Proto.decodeRepeatedSpec data fieldNum := by
  intro data fieldNum
  unfold Proto.DecodeRepeated Proto.decodeRepeatedSpec
  cases Proto.Decode data with
  | error e => rfl
  | ok msg => exact decodeEmbedded_eq_decodeEach (Proto.GetAllFields msg fieldNum)

/-- C4: unknown measurement ids never fail a batch: resolution succeeds
whenever the wire decode did, regardless of schema; a measurement whose id
is absent from the schema contributes no reading; every surviving
measurement (known id, not the timestamp, value present) emits exactly one
reading whose value is the total float64 coercion of its typed value; and
the boolean branch of that coercion produces the bit patterns of 1.0 and
0.0. -/
theorem C4_unknown_id_skipped_and_coercion_total :
    (∀ (data : List Nat) (schema : List Handlers.MeasurementMeta) (now : Int),
        (Handlers.decodeMeasurementBatch data).isOk = true →
        (Handlers.resolveBatch data schema now).isOk = true) ∧
    (∀ (schema : List Handlers.MeasurementMeta) (pre : List Handlers.Measurement)
        (m : Handlers.Measurement) (post : List Handlers.Measurement),
        Handlers.idToMeta schema m.id = none →
        Handlers.emitReadings schema (pre ++ m :: post) =
          Handlers.emitReadings schema (pre ++ post)) ∧
    (∀ (schema : List Handlers.MeasurementMeta) (m : Handlers.Measurement)
        (rest : List Handlers.Measurement) (meta : Handlers.MeasurementMeta)
        (v : Handlers.MValue),
        Handlers.idToMeta schema m.id = some meta → meta.name ≠ "timestamp" →
        m.value = some v →
        Handlers.emitReadings schema (m :: rest) =
          ⟨meta.name, Handlers.toFloat64 v, meta.unit⟩ :: Handlers.emitReadings schema rest) ∧
    (Handlers.toFloat64 (.b true) = 0x3FF0000000000000 ∧ Handlers.toFloat64 (.b false) = 0) := by
  refine ⟨?_, ?_, ?_, by rfl, by rfl⟩
  · intro data schema now h
    unfold Handlers.resolveBatch
    cases hd : Handlers.decodeMeasurementBatch data with
    | error e => rw [hd] at h; simp [Except.isOk, Except.toBool] at h
    | ok ms => rfl
  · intro schema pre m post hnone
    induction pre with
    | nil =>
      simp only [List.nil_append]
      simp [Handlers.emitReadings, hnone]
    | cons p rest ih =>
      simp only [List.cons_append]
      cases hp : Handlers.idToMeta schema p.id with
      | none => simp [Handlers.emitReadings, hp, ih]
      | some meta =>
        by_cases ht : meta.name = "timestamp"
        · simp [Handlers.emitReadings, hp, ht, ih]
        · cases hv : p.value with
          | none => simp [Handlers.emitReadings, hp, ht, hv, ih]
          | some v => simp [Handlers.emitReadings, hp, ht, hv, ih]
  · intro schema m rest meta v hmeta ht hv
    simp [Handlers.emitReadings, hmeta, ht, hv]

/-- Witness for C4: the quantified clauses applied to the concrete schema,
an unknown id 9 and a known boolean-valued temperature measurement. -/
theorem C4_unknown_id_skipped_and_coercion_total_witness :
    (Handlers.resolveBatch noValueBytes schemaTemp 5).isOk = true ∧
    Handlers.emitReadings schemaTemp ([] ++ ⟨9, some (.u32 4)⟩ :: []) =
      Handlers.emitReadings schemaTemp ([] ++ []) ∧
    Handlers.emitReadings schemaTemp (⟨2, some (.b true)⟩ :: []) =
      ⟨"temperature", Handlers.toFloat64 (.b true), "celsius"⟩ ::
        Handlers.emitReadings schemaTemp [] :=
  ⟨C4_unknown_id_skipped_and_coercion_total.1 noValueBytes schemaTemp 5 (by rfl),
   C4_unknown_id_skipped_and_coercion_total.2.1 schemaTemp [] ⟨9, some (.u32 4)⟩ [] (by rfl),
   C4_unknown_id_skipped_and_coercion_total.2.2.1 schemaTemp ⟨2, some (.b true)⟩ []
     ⟨2, "temperature", "float", "celsius"⟩ (.b true) (by rfl) (by decide) rfl⟩

/-- C2 counterexample: a batch whose only measurement is the timestamp
measurement carrying the int64 millisecond value -62135596800000.  The
claim says this value becomes the effective timestamp; the code converts it
with time.UnixMilli, obtains Go's zero time, and the IsZero fallback
replaces it with the server time 999. -/
theorem C2_counterexample_zero_time_value :
    Handlers.decodeMeasurementBatch tsZeroBytes =
      .ok [⟨3, some (.i64 (-62135596800000))⟩] ∧
    Handlers.resolveBatch tsZeroBytes schemaTemp 999 = .ok ([], 999) ∧
    (999 : Int) ≠ -62135596800000 :=
  ⟨rfl, rfl, by decide⟩

/-- Skipping a non-timestamp measurement leaves the first pass unchanged. -/
theorem firstPassTimestamp_skip (schema : List Handlers.MeasurementMeta)
    (m : Handlers.Measurement) (rest : List Handlers.Measurement)
    (h : Handlers.isTimestampMeas schema m = false) :
    Handlers.firstPassTimestamp schema (m :: rest) =
      Handlers.firstPassTimestamp schema rest := by
  unfold Handlers.isTimestampMeas at h
  cases hm : Handlers.idToMeta schema m.id with
  | none => simp [Handlers.firstPassTimestamp, hm]
  | some meta =>
    rw [hm] at h
    have : meta.name ≠ "timestamp" := by simpa using h
    simp [Handlers.firstPassTimestamp, hm, this]

/-- C2 amended: the first measurement whose schema entry is named timestamp
supplies the effective timestamp from any integer representation, unless
the supplied value is exactly -62135596800000 (the millisecond epoch of
Go's zero time), which falls back to the server time just as a missing
timestamp does; the scan stops at that first timestamp-named measurement,
so when it carries no integer value, or the zero-time value, the server
time is used no matter what later measurements hold; timestamp-named
measurements never appear among the emitted readings; and the
two-measurement scenario yields one temperature reading of 23.5 (float64
bit pattern 0x4037800000000000) with effective timestamp 1700000000000. -/
theorem C2_amended_timestamp_extraction :
    (∀ (schema : List Handlers.MeasurementMeta) (ms : List Handlers.Measurement) (now : Int),
        (∀ m ∈ ms, Handlers.isTimestampMeas schema m = false) →
        Handlers.effectiveTimestamp schema ms now = now) ∧
    (∀ (schema : List Handlers.MeasurementMeta) (pre : List Handlers.Measurement)
        (m : Handlers.Measurement) (post : List Handlers.Measurement) (now v : Int),
        (∀ x ∈ pre, Handlers.isTimestampMeas schema x = false) →
        Handlers.isTimestampMeas schema m = true →
        Handlers.tsFromValue m.value = some v → v ≠ Handlers.zeroTimeMilli →
        Handlers.effectiveTimestamp schema (pre ++ m :: post) now = v) ∧
    (∀ (schema : List Handlers.MeasurementMeta) (pre : List Handlers.Measurement)
        (m : Handlers.Measurement) (post : List Handlers.Measurement) (now : Int),
        (∀ x ∈ pre, Handlers.isTimestampMeas schema x = false) →
        Handlers.isTimestampMeas schema m = true →
        (Handlers.tsFromValue m.value = none ∨
          Handlers.tsFromValue m.value = some Handlers.zeroTimeMilli) →
        Handlers.effectiveTimestamp schema (pre ++ m :: post) now = now) ∧
    (∀ (schema : List Handlers.MeasurementMeta) (ms : List Handlers.Measurement)
        (r : Handlers.Reading), r ∈ Handlers.emitReadings schema ms →
        r.name ≠ "timestamp") ∧
    (Handlers.resolveBatch tempBatchBytes schemaTemp 555 =
      .ok ([⟨"temperature", 0x4037800000000000, "celsius"⟩], 1700000000000)) := by
  refine ⟨?_, ?_, ?_, ?_, by rfl⟩
  · intro schema ms now h
    have hfp : Handlers.firstPassTimestamp schema ms = none := by
      induction ms with
      | nil => rfl
      | cons m rest ih =>
        rw [firstPassTimestamp_skip schema m rest (h m (by simp))]
        exact ih (fun x hx => h x (by simp [hx]))
    simp [Handlers.effectiveTimestamp, hfp]
  · intro schema pre m post now v hpre hm hv hnz
    have hfp : Handlers.firstPassTimestamp schema (pre ++ m :: post) = some v := by
      have hstep : Handlers.firstPassTimestamp schema (m :: post) = some v := by
        unfold Handlers.isTimestampMeas at hm
        cases hmeta : Handlers.idToMeta schema m.id with
        | none => rw [hmeta] at hm; cases hm
        | some meta =>
          rw [hmeta] at hm
          have : meta.name = "timestamp" := by simpa using hm
          simp [Handlers.firstPassTimestamp, hmeta, this, hv]
      induction pre with
      | nil => simpa using hstep
      | cons p rest ih =>
        rw [List.cons_append, firstPassTimestamp_skip schema p _ (hpre p (by simp))]
        exact ih (fun x hx => hpre x (by simp [hx]))
    simp [Handlers.effectiveTimestamp, hfp, hnz]
  · intro schema pre m post now hpre hm hor
    have hstep : Handlers.firstPassTimestamp schema (m :: post) =
        Handlers.tsFromValue m.value := by
      unfold Handlers.isTimestampMeas at hm
      cases hmeta : Handlers.idToMeta schema m.id with
      | none => rw [hmeta] at hm; cases hm
      | some meta =>
        rw [hmeta] at hm
        have : meta.name = "timestamp" := by simpa using hm
        simp [Handlers.firstPassTimestamp, hmeta, this]
    have hfp : Handlers.firstPassTimestamp schema (pre ++ m :: post) =
        Handlers.tsFromValue m.value := by
      induction pre with
      | nil => simpa using hstep
      | cons p rest ih =>
        rw [List.cons_append, firstPassTimestamp_skip schema p _ (hpre p (by simp))]
        exact ih (fun x hx => hpre x (by simp [hx]))
    rcases hor with hnone | hzero
    · rw [hnone] at hfp
      simp [Handlers.effectiveTimestamp, hfp]
    · rw [hzero] at hfp
      simp [Handlers.effectiveTimestamp, hfp]
  · intro schema ms r hr
    induction ms with
    | nil => cases hr
    | cons m rest ih =>
      cases hmeta : Handlers.idToMeta schema m.id with
      | none =>
        rw [Handlers.emitReadings, hmeta] at hr
        exact ih hr
      | some meta =>
        by_cases ht : meta.name = "timestamp"
        · rw [Handlers.emitReadings, hmeta] at hr
          simp only [ht, if_true] at hr
          exact ih hr
        · rw [Handlers.emitReadings, hmeta] at hr
          simp only [ht, if_false] at hr
          cases hv : m.value with
          | none => rw [hv] at hr; exact ih hr
          | some v =>
            rw [hv] at hr
            rcases List.mem_cons.mp hr with heq | hmem
            · rw [heq]; exact ht
            · exact ih hmem

/-- Witness for C2 amended: extraction applied to a concrete one-measurement
timestamp batch, fallback applied to a concrete timestamp-free list, the
stop-scan clause applied to a float-valued timestamp measurement followed by
an integer-valued one (later integer ignored, server time 42 used), and the
no-timestamp-reading clause applied to a concrete emitted reading. -/
theorem C2_amended_timestamp_extraction_witness :
    Handlers.effectiveTimestamp schemaTemp [⟨2, some (.f32 5)⟩] 7 = 7 ∧
    Handlers.effectiveTimestamp schemaTemp ([] ++ ⟨3, some (.u64 1700000000000)⟩ :: []) 555 =
      1700000000000 ∧
    Handlers.effectiveTimestamp schemaTemp
      ([] ++ ⟨3, some (.f32 17)⟩ :: [⟨3, some (.u64 1700000000000)⟩]) 42 = 42 ∧
    (⟨"temperature", 0x3FF0000000000000, "celsius"⟩ : Handlers.Reading).name ≠ "timestamp" :=
  ⟨C2_amended_timestamp_extraction.1 schemaTemp [⟨2, some (.f32 5)⟩] 7 (by decide),
   C2_amended_timestamp_extraction.2.1 schemaTemp [] ⟨3, some (.u64 1700000000000)⟩ [] 555
     1700000000000 (by decide) (by rfl) (by rfl) (by decide),
   C2_amended_timestamp_extraction.2.2.1 schemaTemp [] ⟨3, some (.f32 17)⟩
     [⟨3, some (.u64 1700000000000)⟩] 42 (by decide) (by rfl) (Or.inl rfl),
   C2_amended_timestamp_extraction.2.2.2.1 schemaTemp [⟨2, some (.b true)⟩]
     ⟨"temperature", 0x3FF0000000000000, "celsius"⟩ (by decide)⟩

/-- Masking with an all-ones pattern is reduction modulo the power of two. -/
theorem land_two_pow_sub_one (x n : Nat) : x &&& (2 ^ n - 1) = x % 2 ^ n := by
  apply Nat.eq_of_testBit_eq
  intro i
  simp [Nat.testBit_and, Nat.testBit_two_pow_sub_one, Nat.testBit_mod_two_pow, Bool.and_comm]

/-- Xor with an all-ones pattern complements a value below the power of
two. -/
theorem xor_two_pow_sub_one_of_lt {k a : Nat} (h : a < 2 ^ k) :
    a ^^^ (2 ^ k - 1) = 2 ^ k - 1 - a := by
  have h1 : 2 ^ k - 1 - a = 2 ^ k - (a + 1) := by omega
  rw [h1]
  apply Nat.eq_of_testBit_eq
  intro i
  rw [Nat.testBit_xor, Nat.testBit_two_pow_sub_one, Nat.testBit_two_pow_sub_succ h]
  by_cases hi : i < k
  · simp [hi]
  · have hlt : a < 2 ^ i := lt_of_lt_of_le h (Nat.pow_le_pow_right (by norm_num) (by omega))
    simp [hi, Nat.testBit_lt_two_pow hlt]

/-- C7: the zig-zag interpreters, computing (u >> 1) xor -(u & 1) on the raw
varint payload, invert the zig-zag encoding on the whole signed 64-bit and
32-bit ranges, and the encoding maps 0, -1, 1, -2, 2 to 0, 1, 2, 3, 4. -/
theorem C7_zigzag_inverse :
    (∀ n : Int, -2 ^ 63 ≤ n → n < 2 ^ 63 →
        Proto.Value.AsSint64 { wireType := 0, varint := Proto.zigZagEncode n } = n) ∧
    (∀ n : Int, -2 ^ 31 ≤ n → n < 2 ^ 31 →
        Proto.Value.AsSint32 { wireType := 0, varint := Proto.zigZagEncode n } = n) ∧
    (Proto.zigZagEncode 0 = 0 ∧ Proto.zigZagEncode (-1) = 1 ∧ Proto.zigZagEncode 1 = 2 ∧
     Proto.zigZagEncode (-2) = 3 ∧ Proto.zigZagEncode 2 = 4) := by
  have hpos : ∀ n : Int, 0 ≤ n →
      Proto.zigZagEncode n = 2 * n.toNat ∧
      (Proto.zigZagEncode n >>> 1) ^^^ Proto.negUint64 (Proto.zigZagEncode n) = n.toNat := by
    intro n hn
    have henc : Proto.zigZagEncode n = 2 * n.toNat := by
      unfold Proto.zigZagEncode
      rw [if_pos hn]
      omega
    refine ⟨henc, ?_⟩
    rw [henc]
    have hand : 2 * n.toNat &&& 1 = 0 := by
      rw [Nat.and_one_is_mod]
      omega
    have hneg : Proto.negUint64 (2 * n.toNat) = 0 := by
      unfold Proto.negUint64
      rw [hand]
      simp
    have hshift : (2 * n.toNat) >>> 1 = n.toNat := by
      rw [Nat.shiftRight_eq_div_pow]
      omega
    rw [hneg, hshift, Nat.xor_zero]
  have hneg : ∀ n : Int, n < 0 → -2 ^ 63 ≤ n →
      Proto.zigZagEncode n = 2 * (-n).toNat - 1 ∧
      (Proto.zigZagEncode n >>> 1) ^^^ Proto.negUint64 (Proto.zigZagEncode n) =
        2 ^ 64 - (-n).toNat := by
    intro n hn hlo
    have hm1 : 1 ≤ (-n).toNat := by omega
    have hm2 : (-n).toNat ≤ 2 ^ 63 := by omega
    have henc : Proto.zigZagEncode n = 2 * (-n).toNat - 1 := by
      unfold Proto.zigZagEncode
      rw [if_neg (by omega)]
      omega
    refine ⟨henc, ?_⟩
    rw [henc]
    have hand : (2 * (-n).toNat - 1) &&& 1 = 1 := by
      rw [Nat.and_one_is_mod]
      omega
    have hnegu : Proto.negUint64 (2 * (-n).toNat - 1) = 2 ^ 64 - 1 := by
      unfold Proto.negUint64
      rw [hand]
      omega
    have hshift : (2 * (-n).toNat - 1) >>> 1 = (-n).toNat - 1 := by
      rw [Nat.shiftRight_eq_div_pow]
      omega
    rw [hnegu, hshift, xor_two_pow_sub_one_of_lt (k := 64) (by omega)]
    omega
  refine ⟨?_, ?_, by decide, by decide, by decide, by decide, by decide⟩
  · intro n hlo hhi
    by_cases hn : 0 ≤ n
    · obtain ⟨-, hval⟩ := hpos n hn
      unfold Proto.Value.AsSint64
      simp only
      rw [hval]
      unfold Proto.toInt64
      have h1 : n.toNat % 2 ^ 64 = n.toNat := by omega
      rw [h1, if_pos (by omega)]
      omega
    · obtain ⟨-, hval⟩ := hneg n (by omega) hlo
      unfold Proto.Value.AsSint64
      simp only
      rw [hval]
      unfold Proto.toInt64
      have h1 : (2 ^ 64 - (-n).toNat) % 2 ^ 64 = 2 ^ 64 - (-n).toNat := by omega
      rw [h1, if_neg (by omega)]
      omega
  · intro n hlo hhi
    by_cases hn : 0 ≤ n
    · obtain ⟨-, hval⟩ := hpos n hn
      unfold Proto.Value.AsSint32
      simp only
      rw [hval]
      unfold Proto.toInt32
      have h1 : n.toNat % 2 ^ 32 = n.toNat := by omega
      rw [h1, if_pos (by omega)]
      omega
    · obtain ⟨-, hval⟩ := hneg n (by omega) (by omega)
      unfold Proto.Value.AsSint32
      simp only
      rw [hval]
      unfold Proto.toInt32
      have h1 : (2 ^ 64 - (-n).toNat) % 2 ^ 32 = 2 ^ 32 - (-n).toNat := by omega
      rw [h1, if_neg (by omega)]
      omega

/-- Witness for C7: the inverses applied at -1 (64-bit) and 2 (32-bit). -/
theorem C7_zigzag_inverse_witness :
    Proto.Value.AsSint64 { wireType := 0, varint := Proto.zigZagEncode (-1) } = -1 ∧
    Proto.Value.AsSint32 { wireType := 0, varint := Proto.zigZagEncode 2 } = 2 :=
  ⟨C7_zigzag_inverse.1 (-1) (by norm_num) (by norm_num),
   C7_zigzag_inverse.2.1 2 (by norm_num) (by norm_num)⟩

/-- Length bound for the varint encoder: a value below 2 ^ (7k + 7) encodes
in at most k + 1 bytes. -/
theorem encodeVarintAux_length : ∀ (fuel v k : Nat), v < 2 ^ (7 * k + 7) →
    (Proto.encodeVarintAux fuel v).length ≤ k + 1 := by
  intro fuel
  induction fuel with
  | zero =>
    intro v k h
    simp [Proto.encodeVarintAux]
  | succ f ih =>
    intro v k h
    by_cases hv : 0x80 ≤ v
    · have hk : 1 ≤ k := by
        by_contra hk0
        have hk1 : k = 0 := by omega
        subst hk1
        norm_num at h
        omega
      obtain ⟨k1, rfl⟩ : ∃ k1, k = k1 + 1 := ⟨k - 1, by omega⟩
      have hv1 : v >>> 7 < 2 ^ (7 * k1 + 7) := by
        rw [Nat.shiftRight_eq_div_pow]
        have hlt : v < 2 ^ (7 * k1 + 7) * 2 ^ 7 := by
          rw [← pow_add]
          have : 7 * (k1 + 1) + 7 = 7 * k1 + 7 + 7 := by ring
          rw [this] at h
          exact h
        have h7 : (0 : Nat) < 2 ^ 7 := by norm_num
        exact (Nat.div_lt_iff_lt_mul h7).mpr hlt
      simp only [Proto.encodeVarintAux, if_pos hv, List.length_cons]
      have := ih (v >>> 7) k1 hv1
      omega
    · simp [Proto.encodeVarintAux, hv]

/-- The continuation byte keeps the low seven bits of the value. -/
theorem cont_byte_low_bits (v : Nat) : ((v % 256) ||| 0x80) &&& 0x7F = v % 2 ^ 7 := by
  have h256 : (256 : Nat) = 2 ^ 8 := by norm_num
  have h128 : (0x80 : Nat) = 2 ^ 7 := by norm_num
  have h127 : (0x7F : Nat) = 2 ^ 7 - 1 := by norm_num
  rw [h256, h127, h128]
  apply Nat.eq_of_testBit_eq
  intro i
  simp only [Nat.testBit_and, Nat.testBit_or, Nat.testBit_mod_two_pow,
    Nat.testBit_two_pow_sub_one, Nat.testBit_two_pow]
  by_cases hi : i < 7
  · simp [hi, show i < 8 by omega, show ¬(7 = i) by omega]
  · simp [hi]

/-- The continuation byte has its top bit set. -/
theorem cont_byte_ge (v : Nat) : 0x80 ≤ (v % 256) ||| 0x80 := by
  have hbit : ((v % 256) ||| 0x80).testBit 7 = true := by
    rw [Nat.testBit_or]
    have h7 : (0x80 : Nat).testBit 7 = true := by
      rw [show (0x80 : Nat) = 2 ^ 7 by norm_num]
      exact Nat.testBit_two_pow_self
    rw [h7]
    simp
  have := Nat.testBit_implies_ge hbit
  norm_num at this
  omega

/-- Accumulating the low seven bits at the current shift and the remaining
bits seven positions higher is the same as accumulating the whole value,
modulo 2 ^ 64 throughout. -/
theorem varint_or_step (result v shift : Nat) :
    ((result ||| ((v % 2 ^ 7) <<< shift)) % 2 ^ 64 ||| ((v >>> 7) <<< (shift + 7))) % 2 ^ 64 =
      (result ||| (v <<< shift)) % 2 ^ 64 := by
  apply Nat.eq_of_testBit_eq
  intro i
  simp only [Nat.testBit_mod_two_pow, Nat.testBit_or, Nat.testBit_shiftLeft,
    Nat.testBit_shiftRight]
  by_cases h64 : i < 64
  · by_cases hs : shift ≤ i
    · by_cases hs7 : shift + 7 ≤ i
      · have he : 7 + (i - (shift + 7)) = i - shift := by omega
        have hmb : (v % 2 ^ 7).testBit (i - shift) = false := by
          rw [Nat.testBit_mod_two_pow]
          simp [show ¬(i - shift < 7) by omega]
        cases hb : v.testBit (i - shift) <;>
          simp [ge_iff_le, h64, hs, hs7, he, hmb, hb]
      · have hmb : (v % 2 ^ 7).testBit (i - shift) = v.testBit (i - shift) := by
          rw [Nat.testBit_mod_two_pow]
          simp [show i - shift < 7 by omega]
        cases hb : v.testBit (i - shift) <;>
          simp [ge_iff_le, h64, hs, hs7, hmb, hb, show i - shift < 7 by omega]
    · have hs7 : ¬(shift + 7 ≤ i) := by omega
      simp [ge_iff_le, h64, hs, hs7]
  · simp [h64]

/-- Decoding an encoded value from any loop state accumulates the value at
the current shift, consuming exactly the encoded bytes. -/
theorem decode_encodeVarintAux : ∀ (fuel v i shift result : Nat),
    v < 2 ^ (7 * fuel + 7) →
    i + (Proto.encodeVarintAux fuel v).length ≤ 10 →
    Proto.decodeVarintAux (Proto.encodeVarintAux fuel v) i shift result =
      ((result ||| (v <<< shift)) % 2 ^ 64, i + (Proto.encodeVarintAux fuel v).length) := by
  have hsingle : ∀ (v i shift result : Nat), v < 0x80 → i + 1 ≤ 10 →
      Proto.decodeVarintAux [v % 256] i shift result =
        ((result ||| (v <<< shift)) % 2 ^ 64, i + 1) := by
    intro v i shift result hv hi
    have hmod : v % 256 = v := by omega
    have hband : v &&& 0x7F = v := by
      rw [show (0x7F : Nat) = 2 ^ 7 - 1 by norm_num, land_two_pow_sub_one]
      omega
    rw [hmod]
    simp only [Proto.decodeVarintAux]
    rw [if_neg (by omega : ¬ 10 ≤ i), hband, if_pos hv]
  intro fuel
  induction fuel with
  | zero =>
    intro v i shift result hv hlen
    have hv1 : v < 0x80 := by
      norm_num at hv
      omega
    simp only [Proto.encodeVarintAux] at hlen ⊢
    simp only [List.length_cons, List.length_nil] at hlen ⊢
    exact hsingle v i shift result hv1 (by omega)
  | succ f ih =>
    intro v i shift result hv hlen
    by_cases hv8 : 0x80 ≤ v
    · have hv1 : v >>> 7 < 2 ^ (7 * f + 7) := by
        rw [Nat.shiftRight_eq_div_pow]
        have hlt : v < 2 ^ (7 * f + 7) * 2 ^ 7 := by
          rw [← pow_add]
          have h77 : 7 * (f + 1) + 7 = 7 * f + 7 + 7 := by ring
          rw [h77] at hv
          exact hv
        exact (Nat.div_lt_iff_lt_mul (by norm_num)).mpr hlt
      simp only [Proto.encodeVarintAux, if_pos hv8, List.length_cons] at hlen ⊢
      have hi10 : ¬ 10 ≤ i := by omega
      simp only [Proto.decodeVarintAux]
      rw [if_neg hi10, cont_byte_low_bits, if_neg (by have := cont_byte_ge v; omega)]
      rw [ih (v >>> 7) (i + 1) (shift + 7)
        ((result ||| ((v % 2 ^ 7) <<< shift)) % 2 ^ 64) hv1 (by omega)]
      rw [varint_or_step]
      congr 1
      omega
    · simp only [Proto.encodeVarintAux, if_neg hv8] at hlen ⊢
      simp only [List.length_cons, List.length_nil] at hlen ⊢
      exact hsingle v i shift result (by omega) (by omega)

/-- C6: encoding any unsigned 64-bit value as a varint and decoding it back
returns the value exactly, consuming exactly the encoded length. -/
theorem C6_varint_roundtrip :
    ∀ v : Nat, v < 2 ^ 64 →
      Proto.decodeVarint (Proto.encodeVarint v) = (v, (Proto.encodeVarint v).length) := by
  intro v hv
  unfold Proto.decodeVarint Proto.encodeVarint
  have hb : v < 2 ^ (7 * v + 7) :=
    lt_of_lt_of_le (Nat.lt_two_pow v) (Nat.pow_le_pow_right (by norm_num) (by omega))
  have hlen : (Proto.encodeVarintAux v v).length ≤ 10 := by
    have := encodeVarintAux_length v v 9 (lt_of_lt_of_le hv (by norm_num))
    omega
  rw [decode_encodeVarintAux v v 0 0 0 hb (by omega)]
  rw [Nat.zero_or, Nat.shiftLeft_zero, Nat.mod_eq_of_lt hv, Nat.zero_add]

/-- Witness for C6: the round trip at the five boundary values 0, 127, 128,
2 ^ 63 and 2 ^ 64 - 1. -/
theorem C6_varint_roundtrip_witness :
    Proto.decodeVarint (Proto.encodeVarint 0) = (0, (Proto.encodeVarint 0).length) ∧
    Proto.decodeVarint (Proto.encodeVarint 127) = (127, (Proto.encodeVarint 127).length) ∧
    Proto.decodeVarint (Proto.encodeVarint 128) = (128, (Proto.encodeVarint 128).length) ∧
    Proto.decodeVarint (Proto.encodeVarint (2 ^ 63)) =
      (2 ^ 63, (Proto.encodeVarint (2 ^ 63)).length) ∧
    Proto.decodeVarint (Proto.encodeVarint (2 ^ 64 - 1)) =
      (2 ^ 64 - 1, (Proto.encodeVarint (2 ^ 64 - 1)).length) :=
  ⟨C6_varint_roundtrip 0 (by norm_num), C6_varint_roundtrip 127 (by norm_num),
   C6_varint_roundtrip 128 (by norm_num), C6_varint_roundtrip (2 ^ 63) (by norm_num),
   C6_varint_roundtrip (2 ^ 64 - 1) (by norm_num)⟩
